import Mathlib

/-!
Verification development for the environment-management tool
(src/env-management.py).  The core is the execution follower
(follow_execution, lines 20-70) and the lifecycle sequencer built on it
(create / delete / install / uninstall, lines 78-148).

The remote orchestration service is modelled as a pair of time-indexed
streams (events visible at a moment, status at a moment); every outbound
call of the follower observes the service at a strictly increasing clock
value, so races between an event page read and a status read are
expressible.  The follower itself is a step function on an explicit state
plus a fuel-indexed loop; fuel exhaustion (result none) models the Python
loop still running.
-/

/-! ## Statuses

Modelled from the spec (section 9): the status enumeration and the subset of
terminal statuses come from the external client library
(cloudify_rest_client.executions.Execution), which is outside this
repository.  END_STATES = {terminated, failed, cancelled}; TERMINATED is the
single success status. -/

inductive Status where
  | pending
  | queued
  | started
  | cancelling
  | terminated
  | failed
  | cancelled
deriving DecidableEq, Repr

/-- Execution.END_STATES membership: the terminal statuses. -/
def isEndState : Status → Bool
  | Status.terminated => true
  | Status.failed => true
  | Status.cancelled => true
  | _ => false

/-! ## Events and executions (spec section 3) -/

/-- One event dictionary as consumed by the follower (lines 36-43).
Optional fields model absent dictionary keys. -/
structure Event where
  reported_timestamp : String
  level : Option String
  message : String
  node_instance_id : Option String
deriving DecidableEq, Repr

/-- An execution handle; the status fetch at line 53 re-reads
id, status, deployment_id and workflow_id (the non-status fields are
immutable per the data model). -/
structure Execution where
  id : String
  workflow_id : String
  deployment_id : Option String
  status : Status
deriving DecidableEq, Repr

/-- The remote service as seen through read calls, as a function of a
logical clock: events svc t is the full event list visible at moment t,
status svc t the execution status at moment t.  An EventPage at offset o is
the 500-bounded slice of events svc t starting at o, with total equal to
the visible length at query time. -/
structure Service where
  events : Nat → List Event
  status : Nat → Status

/-- The _size argument of client.events.list (line 32). -/
def pageSize : Nat := 500

/-- The items of one events.list response (lines 29-35):
the events at offset off of the list visible at moment t, at most
pageSize of them, in service order (sort by reported_timestamp). -/
def pageItems (svc : Service) (t : Nat) (off : Nat) : List Event :=
  ((svc.events t).drop off).take pageSize

/-- metadata.pagination.total of one events.list response at moment t. -/
def pageTotal (svc : Service) (t : Nat) : Nat :=
  (svc.events t).length

/-! ## Log-line rendering (lines 36-43) -/

/-- The numeric levels of the Python logging module; getattr(logging, name)
for a name that is not a level attribute raises, modelled as none. -/
def loggingLevel : String → Option Nat
  | "CRITICAL" => some 50
  | "FATAL" => some 50
  | "ERROR" => some 40
  | "WARNING" => some 30
  | "WARN" => some 30
  | "INFO" => some 20
  | "DEBUG" => some 10
  | "NOTSET" => some 0
  | _ => none

/-- Python str.upper() on ascii strings: upper-case every character. -/
def pyUpper (s : String) : String :=
  { data := s.data.map Char.toUpper }

/-- getattr(logging, item.get(level, info).upper()) at line 38: the level
key defaults to info when absent and is upper-cased before lookup. -/
def severityOf (e : Event) : Option Nat :=
  loggingLevel (pyUpper (e.level.getD "info"))

/-- Python string interpolation of a nullable value: %s of None. -/
def pyStr : Option String → String
  | some s => s
  | none => "None"

/-- The node-instance fragment at line 42: present only when the
node_instance_id key holds a truthy value (absent key and empty string are
both falsy in Python). -/
def nodePart (e : Event) : String :=
  match e.node_instance_id with
  | some n => if n = "" then "" else "[" ++ n ++ "] "
  | none => ""

/-- The rendered message of one event log call (lines 39-43). -/
def formatLine (deployment_id : Option String) (e : Event) : String :=
  "[" ++ e.reported_timestamp ++ "] [" ++ pyStr deployment_id ++ "] "
    ++ nodePart e ++ e.message

/-! ## The follower state machine (lines 26-59) -/

/-- One observable interaction of the follower with the outside world.
fetchPage and fetchStatus record the clock value of the call; fetchStatus
additionally records (as derived observations) the offset already reached
and the total reported by the page fetched just before it.  sleep records
the time.sleep argument (line 59).  logFinished and logTimedOut are the two
summary lines after the loop (lines 61-65). -/
inductive Act where
  | fetchPage (t : Nat) (off : Nat) (items : List Event) (total : Nat)
  | emitLog (sev : Option Nat) (line : String)
  | fetchStatus (t : Nat) (off : Nat) (total : Nat) (st : Status)
  | sleep (secs : Nat)
  | logFinished
  | logTimedOut
deriving DecidableEq, Repr

/-- The log call the emission loop performs for one event, given the
deployment id of the followed execution. -/
def emitF (d : Option String) (e : Event) : Act :=
  Act.emitLog (severityOf e) (formatLine d e)


/-- The loop state of follow_execution.  exec, offset and execution_ended
are the Python locals (lines 26-27 and the rebinding at line 53); the
remaining fields are observation-only instrumentation, never read by any
branch condition: emitted is the list of events logged so far in order,
lastTotal and lastFetchT are the total and clock value of the most recent
page fetch, fetchesAfterEnded counts page fetches of iterations entered
with execution_ended already true (drain passes). -/
structure FollowState where
  exec : Execution
  offset : Nat
  execution_ended : Bool
  emitted : List Event
  lastTotal : Nat
  lastFetchT : Nat
  fetchesAfterEnded : Nat
deriving DecidableEq, Repr

/-- The state at line 26-27: offset 0, execution_ended false. -/
def initState (ex : Execution) : FollowState :=
  { exec := ex
    offset := 0
    execution_ended := false
    emitted := []
    lastTotal := 0
    lastFetchT := 0
    fetchesAfterEnded := 0 }

/-- State after the page fetch, the emission loop and the offset advance of
one iteration (lines 29-45). -/
def fetchState (svc : Service) (t : Nat) (s : FollowState) : FollowState :=
  { s with
      offset := s.offset + (pageItems svc t s.offset).length
      emitted := s.emitted ++ pageItems svc t s.offset
      lastTotal := pageTotal svc t
      lastFetchT := t
      fetchesAfterEnded :=
        s.fetchesAfterEnded + (if s.execution_ended then 1 else 0) }

/-- The actions of the page fetch and the emission loop (lines 29-43): one
page fetch followed by one log call per item, in page order. -/
def fetchActs (svc : Service) (t : Nat) (s : FollowState) : List Act :=
  Act.fetchPage t s.offset (pageItems svc t s.offset) (pageTotal svc t) ::
    (pageItems svc t s.offset).map (emitF s.exec.deployment_id)

/-- The status fetch of line 53, performed one clock tick after the page
fetch of the same iteration. -/
def statusAct (svc : Service) (t : Nat) (s : FollowState) : Act :=
  Act.fetchStatus (t + 1) (s.offset + (pageItems svc t s.offset).length)
    (pageTotal svc t) (svc.status (t + 1))

/-- State after the status fetch of line 53 rebinding the execution:
only the status field can change (the other _include fields are
immutable), and execution_ended is set per line 56-57. -/
def statusState (svc : Service) (t : Nat) (s : FollowState) (e1 : Bool) :
    FollowState :=
  { fetchState svc t s with
      exec := { s.exec with status := svc.status (t + 1) }
      execution_ended := e1 }

/-- Result of one iteration of the while loop: either the loop continues at
a later clock value, or the break at line 51 fires. -/
inductive StepRes where
  | cont (t1 : Nat) (s : FollowState) (acts : List Act)
  | stop (s : FollowState) (acts : List Act)
deriving DecidableEq, Repr

/-- The actions of a step result. -/
def StepRes.acts : StepRes → List Act
  | StepRes.cont _ _ a => a
  | StepRes.stop _ a => a

/-- The continuation clock value of a step result, none on break. -/
def StepRes.nextT : StepRes → Option Nat
  | StepRes.cont t1 _ _ => some t1
  | StepRes.stop _ _ => none

/-- Whether the step result is the break at line 51. -/
def StepRes.isStop : StepRes → Bool
  | StepRes.cont _ _ _ => false
  | StepRes.stop _ _ => true

/-- One iteration of the while loop (lines 28-59).  The page fetch happens
at clock t.  If the advanced offset is below the reported total, the loop
repeats immediately (line 47-48); else if execution_ended was already set,
the loop breaks (line 50-51); otherwise the status is fetched at clock
t + 1 and the loop repeats, with a sleep of one second first when the
status is not terminal (lines 53-59). -/
def followStep (svc : Service) (t : Nat) (s : FollowState) : StepRes :=
  if s.offset + (pageItems svc t s.offset).length < pageTotal svc t then
    StepRes.cont (t + 1) (fetchState svc t s) (fetchActs svc t s)
  else if s.execution_ended then
    StepRes.stop (fetchState svc t s) (fetchActs svc t s)
  else if isEndState (svc.status (t + 1)) then
    StepRes.cont (t + 2) (statusState svc t s true)
      (fetchActs svc t s ++ [statusAct svc t s])
  else
    StepRes.cont (t + 2) (statusState svc t s false)
      (fetchActs svc t s ++ [statusAct svc t s, Act.sleep 1])

/-- The while loop (line 28), with fuel: none models the loop still
running after fuel iterations (the Python loop has no bound of its own).
The accumulated trace tr collects the actions of all iterations. -/
def followLoop (svc : Service) :
    Nat → Nat → FollowState → List Act → Option (FollowState × List Act)
  | 0, _, _, _ => none
  | fuel + 1, t, s, tr =>
    match followStep svc t s with
    | StepRes.stop s1 acts => some (s1, tr ++ acts)
    | StepRes.cont t1 s1 acts => followLoop svc fuel t1 s1 (tr ++ acts)

/-- The exception raised at line 68: its message carries the execution id
and the observed status. -/
structure FollowErr where
  execId : String
  status : Status
deriving DecidableEq, Repr

/-- follow_execution (lines 20-70).  Returns none when the loop is still
running after fuel iterations; otherwise the outcome (ok execution, or the
raised error), the final loop state and the full action trace including the
post-loop summary line (lines 61-65): logFinished when execution_ended is
set, else logTimedOut. -/
def follow_execution (svc : Service) (ex : Execution) (fuel : Nat) :
    Option (Except FollowErr Execution × FollowState × List Act) :=
  match followLoop svc fuel 0 (initState ex) [] with
  | none => none
  | some (s, tr) =>
    let tr1 := tr ++ [if s.execution_ended then Act.logFinished
                      else Act.logTimedOut]
    if s.exec.status = Status.terminated then
      some (Except.ok s.exec, s, tr1)
    else
      some (Except.error { execId := s.exec.id, status := s.exec.status }, s, tr1)

/-! ## The lifecycle sequencer (lines 73-148)

The remote mutating calls and the auxiliary reads are modelled as trace
entries; file parsing (yaml/json inputs and the outputs file) and the
command-line surface are external collaborators per the spec and are out
of scope, so inputs are passed as an opaque value and the outputs record
is returned rather than written. -/

/-- One remote call of the sequencer, in issue order.  followExecution
stands for one whole follow_execution run on the named execution. -/
inductive Call where
  | createDeployment (blueprint_id deployment_id inputs : String)
  | listExecutions (deployment_id : String)
  | followExecution (execution_id : String)
  | startExecution (deployment_id workflow_id : String)
  | deleteDeployment (deployment_id : String)
  | uploadBlueprint (path entity_id : String)
  | deleteBlueprint (blueprint_id : String)
  | getCapabilities (deployment_id : String)
  | getOutputs (deployment_id : String)
deriving DecidableEq, Repr

/-- How a lifecycle operation fails: the exception of follow_execution
(line 68), or the IndexError of the bare [0] indexing at line 84. -/
inductive RunErr where
  | executionFailed (e : FollowErr)
  | indexError
deriving DecidableEq, Repr

/-- A connected rest client: responses of the remote service to the calls
the sequencer issues.  execService gives, per execution id, the streams the
follower reads; listExecutions models executions.list(deployment_id);
capabilities and outputs are the post-install reads, opaque payloads. -/
structure Client where
  startExec : String → String → Execution
  execService : String → Service
  listExecutions : String → List Execution
  capabilities : String → String
  outputs : String → String

/-- The managers.yaml registry (lines 73-75, 109): managers maps a manager
id to its connected client (CloudifyClient(**manager_desc) is collapsed
into the client value), topologies maps a blueprint id to its owning
manager id. -/
structure Managers where
  managers : String → Client
  topologies : String → String

/-- _get_rest_client (lines 73-75). -/
def get_rest_client (managers : Managers) (manager_id : String) : Client :=
  managers.managers manager_id

/-- Outcome of one lifecycle step sequence: none when a followed execution
never ends (fuel out); otherwise the calls issued, and the error raised (if
any) after those calls. -/
def SeqResult : Type := List Call × Option RunErr

/-- _create_deployment (lines 78-85): create the deployment, list its
executions, take the FIRST element of that list (bare [0] indexing: an
empty list raises IndexError before any follow), then follow it. -/
def create_deployment (client : Client) (blueprint_id deployment_id inputs : String)
    (fuel : Nat) : Option SeqResult :=
  match client.listExecutions deployment_id with
  | [] =>
    some ([Call.createDeployment blueprint_id deployment_id inputs,
           Call.listExecutions deployment_id], some RunErr.indexError)
  | depEx :: _ =>
    match follow_execution (client.execService depEx.id) depEx fuel with
    | none => none
    | some (Except.error e, _, _) =>
      some ([Call.createDeployment blueprint_id deployment_id inputs,
             Call.listExecutions deployment_id, Call.followExecution depEx.id],
        some (RunErr.executionFailed e))
    | some (Except.ok _, _, _) =>
      some ([Call.createDeployment blueprint_id deployment_id inputs,
             Call.listExecutions deployment_id, Call.followExecution depEx.id],
        none)

/-- _install (lines 92-97): start the install workflow and follow it. -/
def installStep (client : Client) (deployment_id : String) (fuel : Nat) :
    Option SeqResult :=
  match follow_execution
      (client.execService (client.startExec deployment_id "install").id)
      (client.startExec deployment_id "install") fuel with
  | none => none
  | some (Except.error e, _, _) =>
    some ([Call.startExecution deployment_id "install",
           Call.followExecution (client.startExec deployment_id "install").id],
      some (RunErr.executionFailed e))
  | some (Except.ok _, _, _) =>
    some ([Call.startExecution deployment_id "install",
           Call.followExecution (client.startExec deployment_id "install").id],
      none)

/-- _uninstall (lines 100-105): start the uninstall workflow and follow it. -/
def uninstallStep (client : Client) (deployment_id : String) (fuel : Nat) :
    Option SeqResult :=
  match follow_execution
      (client.execService (client.startExec deployment_id "uninstall").id)
      (client.startExec deployment_id "uninstall") fuel with
  | none => none
  | some (Except.error e, _, _) =>
    some ([Call.startExecution deployment_id "uninstall",
           Call.followExecution (client.startExec deployment_id "uninstall").id],
      some (RunErr.executionFailed e))
  | some (Except.ok _, _, _) =>
    some ([Call.startExecution deployment_id "uninstall",
           Call.followExecution (client.startExec deployment_id "uninstall").id],
      none)

/-- The outputs record written by create (lines 117-123): exactly the four
fields of the json document, with outputs and capabilities the opaque
payloads read from the deployment. -/
structure CreateOutput where
  manager_id : String
  deployment_id : String
  outputs : String
  capabilities : String
deriving DecidableEq, Repr

/-- create (lines 108-123): resolve the owning manager from the topologies
registry, create and follow the deployment, install and follow, then read
capabilities and outputs (in that order) and produce the outputs record.
A raised error aborts the remaining calls. -/
def create (managers : Managers) (blueprint_id env_deployment_id inputs : String)
    (fuel : Nat) : Option (List Call × Except RunErr CreateOutput) :=
  match create_deployment
      (get_rest_client managers (managers.topologies blueprint_id))
      blueprint_id env_deployment_id inputs fuel with
  | none => none
  | some (tr, some e) => some (tr, Except.error e)
  | some (tr, none) =>
    match installStep (get_rest_client managers (managers.topologies blueprint_id))
        env_deployment_id fuel with
    | none => none
    | some (tr2, some e) => some (tr ++ tr2, Except.error e)
    | some (tr2, none) =>
      some (tr ++ tr2 ++ [Call.getCapabilities env_deployment_id,
                          Call.getOutputs env_deployment_id],
        Except.ok
          { manager_id := managers.topologies blueprint_id
            deployment_id := env_deployment_id
            outputs :=
              (get_rest_client managers
                (managers.topologies blueprint_id)).outputs env_deployment_id
            capabilities :=
              (get_rest_client managers
                (managers.topologies blueprint_id)).capabilities env_deployment_id })

/-- delete (lines 126-129): uninstall and follow, then delete the
deployment record. -/
def delete (managers : Managers) (manager_id env_deployment_id : String)
    (fuel : Nat) : Option SeqResult :=
  match uninstallStep (get_rest_client managers manager_id)
      env_deployment_id fuel with
  | none => none
  | some (tr, some e) => some (tr, some e)
  | some (tr, none) => some (tr ++ [Call.deleteDeployment env_deployment_id], none)

/-- install (lines 132-141): upload the blueprint under app_id, create and
follow the deployment (deployment id = app id), install and follow. -/
def install (managers : Managers) (manager_id app_blueprint_path app_id inputs : String)
    (fuel : Nat) : Option SeqResult :=
  match create_deployment (get_rest_client managers manager_id)
      app_id app_id inputs fuel with
  | none => none
  | some (tr, some e) =>
    some (Call.uploadBlueprint app_blueprint_path app_id :: tr, some e)
  | some (tr, none) =>
    match installStep (get_rest_client managers manager_id) app_id fuel with
    | none => none
    | some (tr2, er) =>
      some (Call.uploadBlueprint app_blueprint_path app_id :: (tr ++ tr2), er)

/-- uninstall (lines 144-148): uninstall and follow, then delete the
deployment, then delete the uploaded blueprint; an error raised by the
follower aborts the two deletions. -/
def uninstall (managers : Managers) (manager_id app_id : String) (fuel : Nat) :
    Option SeqResult :=
  match uninstallStep (get_rest_client managers manager_id) app_id fuel with
  | none => none
  | some (tr, some e) => some (tr, some e)
  | some (tr, none) =>
    some (tr ++ [Call.deleteDeployment app_id, Call.deleteBlueprint app_id], none)

/-! ## Concrete instances used to exercise the definitions -/

/-- A sample event with every optional key absent. -/
def evA : Event :=
  { reported_timestamp := "ts0", level := none, message := "msg", node_instance_id := none }

/-- A sample execution handle as returned by the starting call. -/
def exW : Execution :=
  { id := "e1", workflow_id := "install", deployment_id := some "d1",
    status := Status.started }

/-- A service with no events whose execution is already terminated. -/
def svcOk : Service :=
  { events := fun _ => [], status := fun _ => Status.terminated }

/-- A service whose execution never leaves the started status. -/
def svcStuck : Service :=
  { events := fun _ => [], status := fun _ => Status.started }

/-- A service with no events whose execution ends in the failed status. -/
def svcFail : Service :=
  { events := fun _ => [], status := fun _ => Status.failed }

/-- A service exposing more events than one page holds. -/
def svcBig : Service :=
  { events := fun _ => List.replicate 501 evA, status := fun _ => Status.started }

/-- A client whose executions all terminate successfully at once. -/
def clientOk : Client :=
  { startExec := fun dep wf =>
      { id := dep ++ "." ++ wf, workflow_id := wf, deployment_id := some dep,
        status := Status.started }
    execService := fun _ => svcOk
    listExecutions := fun dep =>
      [{ id := dep ++ ".create", workflow_id := "create_deployment_environment",
         deployment_id := some dep, status := Status.started }]
    capabilities := fun _ => "caps"
    outputs := fun _ => "outs" }

/-- A client whose execution listing for any deployment is empty. -/
def clientEmpty : Client :=
  { clientOk with listExecutions := fun _ => [] }

/-- A registry resolving every blueprint and manager to clientOk. -/
def managersOk : Managers :=
  { managers := fun _ => clientOk, topologies := fun _ => "m1" }

/-! ## Trace projections and the termination budget -/

/-- The pages of a trace: the items list of every page fetch, in order. -/
def pagesOf (tr : List Act) : List (List Event) :=
  tr.filterMap fun a =>
    match a with
    | Act.fetchPage _ _ items _ => some items
    | _ => none

/-- The event log calls of a trace, in order. -/
def emitActions (tr : List Act) : List Act :=
  tr.filter fun a =>
    match a with
    | Act.emitLog _ _ => true
    | _ => false

/-- A loop-iteration budget sufficient for termination once the service is
terminal and stable from clock T on with event list E. -/
def enoughFuel (T : Nat) (E : List Event) : Nat :=
  2 * E.length + T + 3

/-- Termination measure of the polling loop against a service that is
terminal and stable from clock T on with event list E. -/
def loopMeasure (E : List Event) (T t : Nat) (s : FollowState) : Nat :=
  2 * (E.length - s.offset) + (if s.execution_ended then 1 else 3) + (T - t)

/-- Whether an action is one the loop body can produce (everything except
the two post-loop summary lines). -/
def isLoopAct : Act → Bool
  | Act.logFinished => false
  | Act.logTimedOut => false
  | _ => true

/-- Whether a list of actions contains a status fetch. -/
def hasStatusFetch (l : List Act) : Bool :=
  l.any fun a =>
    match a with
    | Act.fetchStatus _ _ _ _ => true
    | _ => false

/-- Total seconds slept across a list of actions. -/
def sleepSecs (l : List Act) : Nat :=
  (l.map fun a =>
    match a with
    | Act.sleep d => d
    | _ => 0).sum

/-- The final execution record of the successful sample run. -/
def exOkFinal : Execution :=
  { id := "e1", workflow_id := "install", deployment_id := some "d1",
    status := Status.terminated }

/-- The final loop state of follow_execution svcOk exW 2. -/
def stateOkW : FollowState :=
  { exec := exOkFinal, offset := 0, execution_ended := true, emitted := [],
    lastTotal := 0, lastFetchT := 2, fetchesAfterEnded := 1 }

/-- The trace of follow_execution svcOk exW 2. -/
def traceOkW : List Act :=
  [Act.fetchPage 0 0 [] 0, Act.fetchStatus 1 0 0 Status.terminated,
   Act.fetchPage 2 0 [] 0, Act.logFinished]

/-- The final execution record of the failed sample run. -/
def exFailFinal : Execution :=
  { id := "e1", workflow_id := "install", deployment_id := some "d1",
    status := Status.failed }

/-- The final loop state of follow_execution svcFail exW 2. -/
def stateFailW : FollowState :=
  { exec := exFailFinal, offset := 0, execution_ended := true, emitted := [],
    lastTotal := 0, lastFetchT := 2, fetchesAfterEnded := 1 }

/-- The trace of follow_execution svcFail exW 2. -/
def traceFailW : List Act :=
  [Act.fetchPage 0 0 [] 0, Act.fetchStatus 1 0 0 Status.failed,
   Act.fetchPage 2 0 [] 0, Act.logFinished]

/-- Sample events for a run with growing pages: plain info line, warning
line with a node instance, level-less line with an empty node instance. -/
def e1G : Event :=
  { reported_timestamp := "1", level := some "info", message := "a",
    node_instance_id := none }

/-- Second sample event: upper-case warning level, node instance set. -/
def e2G : Event :=
  { reported_timestamp := "2", level := some "WARNING", message := "b",
    node_instance_id := some "n1" }

/-- Third sample event: absent level, empty (falsy) node instance. -/
def e3G : Event :=
  { reported_timestamp := "3", level := none, message := "c",
    node_instance_id := some "" }

/-- A service whose event list grows from two to three events while the
run is in flight, turning terminal at clock 3. -/
def svcGrow : Service :=
  { events := fun t => if t < 2 then [e1G, e2G] else [e1G, e2G, e3G]
    status := fun t => if t < 3 then Status.started else Status.terminated }

/-- The final loop state of follow_execution svcGrow exW 10. -/
def stateGrowW : FollowState :=
  { exec := exOkFinal, offset := 3, execution_ended := true,
    emitted := [e1G, e2G, e3G], lastTotal := 3, lastFetchT := 4,
    fetchesAfterEnded := 1 }

/-- The trace of follow_execution svcGrow exW 10. -/
def traceGrowW : List Act :=
  [Act.fetchPage 0 0 [e1G, e2G] 2,
   Act.emitLog (some 20) "[1] [d1] a",
   Act.emitLog (some 30) "[2] [d1] [n1] b",
   Act.fetchStatus 1 2 2 Status.started,
   Act.sleep 1,
   Act.fetchPage 2 2 [e3G] 3,
   Act.emitLog (some 20) "[3] [d1] c",
   Act.fetchStatus 3 3 3 Status.terminated,
   Act.fetchPage 4 3 [] 3,
   Act.logFinished]

/-! ## Helper lemmas about lists and single iterations -/

theorem take_stable_of_grow {l1 l2 : List Event} {n : Nat}
    (h : l1 <+: l2) (hn : n ≤ l1.length) : l2.take n = l1.take n := by
  obtain ⟨t, rfl⟩ := h
  rw [List.take_append_eq_append_take]
  have h0 : n - l1.length = 0 := Nat.sub_eq_zero_of_le hn
  rw [h0]
  simp

theorem emitted_after_page (E : List Event) (o : Nat) (ho : o ≤ E.length) :
    E.take o ++ (E.drop o).take pageSize
        = E.take (o + ((E.drop o).take pageSize).length)
      ∧ o + ((E.drop o).take pageSize).length ≤ E.length := by
  have hk : ((E.drop o).take pageSize).length = min pageSize (E.length - o) := by
    rw [List.length_take, List.length_drop]
  rw [hk]
  constructor
  · rcases Nat.le_total pageSize (E.length - o) with h1 | h1
    · rw [min_eq_left h1]
      exact (List.take_add E o pageSize).symm
    · rw [min_eq_right h1]
      have hd : (E.drop o).take pageSize = E.drop o :=
        List.take_of_length_le (by rw [List.length_drop]; exact h1)
      have h2 : o + (E.length - o) = E.length := by omega
      rw [hd, h2, List.take_length]
      exact List.take_append_drop o E
  · omega

theorem fetchActs_loopActs (svc : Service) (t : Nat) (s : FollowState) :
    ∀ a ∈ fetchActs svc t s, isLoopAct a = true := by
  intro a ha
  rcases List.mem_cons.mp ha with h1 | h2
  · rw [h1]; rfl
  · obtain ⟨e, _, he⟩ := List.mem_map.mp h2
    rw [← he]; rfl

theorem statusAct_loopAct (svc : Service) (t : Nat) (s : FollowState) :
    isLoopAct (statusAct svc t s) = true := rfl

theorem fetchStatus_not_mem_fetchActs (svc : Service) (t : Nat) (s : FollowState)
    (u o tot : Nat) (st : Status) :
    Act.fetchStatus u o tot st ∉ fetchActs svc t s := by
  simp [fetchActs, emitF]

theorem pagesOf_fetchActs (svc : Service) (t : Nat) (s : FollowState) :
    pagesOf (fetchActs svc t s) = [pageItems svc t s.offset] := by
  simp [pagesOf, fetchActs, List.filterMap_cons, emitF]

theorem emitActions_map (d : Option String) (l : List Event) :
    emitActions (l.map (emitF d)) = l.map (emitF d) := by
  induction l with
  | nil => rfl
  | cons e l ih =>
    simp [emitActions, List.filter_cons, emitF] at ih ⊢

theorem emitActions_fetchActs (svc : Service) (t : Nat) (s : FollowState) :
    emitActions (fetchActs svc t s)
      = (pageItems svc t s.offset).map (emitF s.exec.deployment_id) := by
  have h1 := emitActions_map s.exec.deployment_id (pageItems svc t s.offset)
  simp only [emitActions, fetchActs, List.filter_cons] at h1 ⊢
  exact h1

/-! ## Loop invariants -/

/-- The loop exits only through the break at line 51: the final state has
execution_ended set, and at least one page fetch happened in an iteration
entered with execution_ended already set (a drain pass). -/
theorem loop_exit (svc : Service) :
    ∀ fuel t s tr0 s1 tr1,
      followLoop svc fuel t s tr0 = some (s1, tr1) →
      s1.execution_ended = true ∧ 1 ≤ s1.fetchesAfterEnded := by
  intro fuel
  induction fuel with
  | zero =>
    intro t s tr0 s1 tr1 h
    simp [followLoop] at h
  | succ n ih =>
    intro t s tr0 s1 tr1 h
    simp only [followLoop] at h
    by_cases hA : s.offset + (pageItems svc t s.offset).length < pageTotal svc t
    · rw [followStep, if_pos hA] at h
      exact ih _ _ _ _ _ h
    · by_cases hB : s.execution_ended = true
      · rw [followStep, if_neg hA, if_pos hB] at h
        have h2 : some (fetchState svc t s, tr0 ++ fetchActs svc t s)
            = some (s1, tr1) := h
        injection h2 with h3
        injection h3 with h4 h5
        subst h4
        constructor
        · simp [fetchState, hB]
        · simp [fetchState, hB]
      · by_cases hC : isEndState (svc.status (t + 1)) = true
        · rw [followStep, if_neg hA, if_neg hB, if_pos hC] at h
          exact ih _ _ _ _ _ h
        · rw [followStep, if_neg hA, if_neg hB, if_neg hC] at h
          exact ih _ _ _ _ _ h

theorem pagesOf_append (l1 l2 : List Act) :
    pagesOf (l1 ++ l2) = pagesOf l1 ++ pagesOf l2 :=
  List.filterMap_append l1 l2 _

theorem emitActions_append (l1 l2 : List Act) :
    emitActions (l1 ++ l2) = emitActions l1 ++ emitActions l2 :=
  List.filter_append l1 l2

/-- The status read at line 53 can only replace the status field; the other
execution fields survive the whole loop, and whenever execution_ended is
set the last read status was terminal. -/
theorem loop_exec (svc : Service) :
    ∀ fuel t s tr0 s1 tr1,
      (s.execution_ended = true → isEndState s.exec.status = true) →
      followLoop svc fuel t s tr0 = some (s1, tr1) →
      (s1.execution_ended = true → isEndState s1.exec.status = true)
      ∧ s1.exec.id = s.exec.id
      ∧ s1.exec.workflow_id = s.exec.workflow_id
      ∧ s1.exec.deployment_id = s.exec.deployment_id := by
  intro fuel
  induction fuel with
  | zero =>
    intro t s tr0 s1 tr1 hInv h
    simp [followLoop] at h
  | succ n ih =>
    intro t s tr0 s1 tr1 hInv h
    simp only [followLoop] at h
    by_cases hA : s.offset + (pageItems svc t s.offset).length < pageTotal svc t
    · rw [followStep, if_pos hA] at h
      exact ih _ (fetchState svc t s) _ _ _ hInv h
    · by_cases hB : s.execution_ended = true
      · rw [followStep, if_neg hA, if_pos hB] at h
        have h2 : some (fetchState svc t s, tr0 ++ fetchActs svc t s)
            = some (s1, tr1) := h
        injection h2 with h3
        injection h3 with h4 h5
        subst h4
        exact ⟨fun _ => hInv hB, rfl, rfl, rfl⟩
      · by_cases hC : isEndState (svc.status (t + 1)) = true
        · rw [followStep, if_neg hA, if_neg hB, if_pos hC] at h
          exact ih _ (statusState svc t s true) _ _ _ (fun _ => hC) h
        · rw [followStep, if_neg hA, if_neg hB, if_neg hC] at h
          exact ih _ (statusState svc t s false) _ _ _
            (fun hend => absurd hend (by simp [statusState])) h

/-- Every action the loop appends to the trace is a loop-body action;
in particular the summary lines never appear inside the loop trace. -/
theorem loop_acts (svc : Service) :
    ∀ fuel t s tr0 s1 tr1,
      followLoop svc fuel t s tr0 = some (s1, tr1) →
      ∀ a ∈ tr1, a ∈ tr0 ∨ isLoopAct a = true := by
  intro fuel
  induction fuel with
  | zero =>
    intro t s tr0 s1 tr1 h
    simp [followLoop] at h
  | succ n ih =>
    intro t s tr0 s1 tr1 h
    simp only [followLoop] at h
    by_cases hA : s.offset + (pageItems svc t s.offset).length < pageTotal svc t
    · rw [followStep, if_pos hA] at h
      intro a ha
      rcases ih _ _ _ _ _ h a ha with h1 | h1
      · rcases List.mem_append.mp h1 with h2 | h2
        · exact Or.inl h2
        · exact Or.inr (fetchActs_loopActs svc t s a h2)
      · exact Or.inr h1
    · by_cases hB : s.execution_ended = true
      · rw [followStep, if_neg hA, if_pos hB] at h
        have h2 : some (fetchState svc t s, tr0 ++ fetchActs svc t s)
            = some (s1, tr1) := h
        injection h2 with h3
        injection h3 with h4 h5
        subst h5
        intro a ha
        rcases List.mem_append.mp ha with h6 | h6
        · exact Or.inl h6
        · exact Or.inr (fetchActs_loopActs svc t s a h6)
      · by_cases hC : isEndState (svc.status (t + 1)) = true
        · rw [followStep, if_neg hA, if_neg hB, if_pos hC] at h
          intro a ha
          rcases ih _ _ _ _ _ h a ha with h1 | h1
          · rcases List.mem_append.mp h1 with h2 | h2
            · exact Or.inl h2
            · rcases List.mem_append.mp h2 with h3 | h3
              · exact Or.inr (fetchActs_loopActs svc t s a h3)
              · rcases List.mem_singleton.mp h3 with rfl
                exact Or.inr (statusAct_loopAct svc t s)
          · exact Or.inr h1
        · rw [followStep, if_neg hA, if_neg hB, if_neg hC] at h
          intro a ha
          rcases ih _ _ _ _ _ h a ha with h1 | h1
          · rcases List.mem_append.mp h1 with h2 | h2
            · exact Or.inl h2
            · rcases List.mem_append.mp h2 with h3 | h3
              · exact Or.inr (fetchActs_loopActs svc t s a h3)
              · rcases List.mem_cons.mp h3 with rfl | h4
                · exact Or.inr (statusAct_loopAct svc t s)
                · rcases List.mem_singleton.mp h4 with rfl
                  exact Or.inr rfl
          · exact Or.inr h1

/-- The status fetch is issued only when the offset has reached the total
reported by the page fetched in the same iteration. -/
theorem loop_status_gated (svc : Service) :
    ∀ fuel t s tr0 s1 tr1,
      (∀ u o tot st, Act.fetchStatus u o tot st ∈ tr0 → tot ≤ o) →
      followLoop svc fuel t s tr0 = some (s1, tr1) →
      ∀ u o tot st, Act.fetchStatus u o tot st ∈ tr1 → tot ≤ o := by
  intro fuel
  induction fuel with
  | zero =>
    intro t s tr0 s1 tr1 hInv h
    simp [followLoop] at h
  | succ n ih =>
    intro t s tr0 s1 tr1 hInv h
    simp only [followLoop] at h
    by_cases hA : s.offset + (pageItems svc t s.offset).length < pageTotal svc t
    · rw [followStep, if_pos hA] at h
      refine ih _ _ _ _ _ ?_ h
      intro u o tot st hm
      rcases List.mem_append.mp hm with h1 | h1
      · exact hInv u o tot st h1
      · exact absurd h1 (fetchStatus_not_mem_fetchActs svc t s u o tot st)
    · by_cases hB : s.execution_ended = true
      · rw [followStep, if_neg hA, if_pos hB] at h
        have h2 : some (fetchState svc t s, tr0 ++ fetchActs svc t s)
            = some (s1, tr1) := h
        injection h2 with h3
        injection h3 with h4 h5
        subst h5
        intro u o tot st hm
        rcases List.mem_append.mp hm with h1 | h1
        · exact hInv u o tot st h1
        · exact absurd h1 (fetchStatus_not_mem_fetchActs svc t s u o tot st)
      · have hnew : ∀ u o tot st,
            Act.fetchStatus u o tot st
                ∈ tr0 ++ (fetchActs svc t s ++ [statusAct svc t s]) →
              tot ≤ o := by
          intro u o tot st hm
          rcases List.mem_append.mp hm with h1 | h1
          · exact hInv u o tot st h1
          · rcases List.mem_append.mp h1 with h2 | h2
            · exact absurd h2 (fetchStatus_not_mem_fetchActs svc t s u o tot st)
            · have h3 := List.mem_singleton.mp h2
              rw [statusAct] at h3
              injection h3 with hu ho htot hst
              omega
        by_cases hC : isEndState (svc.status (t + 1)) = true
        · rw [followStep, if_neg hA, if_neg hB, if_pos hC] at h
          exact ih _ _ _ _ _ hnew h
        · rw [followStep, if_neg hA, if_neg hB, if_neg hC] at h
          refine ih _ _ _ _ _ ?_ h
          intro u o tot st hm
          rcases List.mem_append.mp hm with h1 | h1
          · exact hInv u o tot st h1
          · rcases List.mem_append.mp h1 with h2 | h2
            · exact absurd h2 (fetchStatus_not_mem_fetchActs svc t s u o tot st)
            · rcases List.mem_cons.mp h2 with h3 | h4
              · rw [statusAct] at h3
                injection h3 with hu ho htot hst
                omega
              · simp at h4

/-- The emitted event list is exactly the concatenation of the pages, in
the order the pages were returned. -/
theorem loop_pages (svc : Service) :
    ∀ fuel t s tr0 s1 tr1,
      (pagesOf tr0).flatten = s.emitted →
      followLoop svc fuel t s tr0 = some (s1, tr1) →
      (pagesOf tr1).flatten = s1.emitted := by
  intro fuel
  induction fuel with
  | zero =>
    intro t s tr0 s1 tr1 hInv h
    simp [followLoop] at h
  | succ n ih =>
    intro t s tr0 s1 tr1 hInv h
    simp only [followLoop] at h
    by_cases hA : s.offset + (pageItems svc t s.offset).length < pageTotal svc t
    · rw [followStep, if_pos hA] at h
      refine ih _ (fetchState svc t s) _ _ _ ?_ h
      rw [pagesOf_append, pagesOf_fetchActs, List.flatten_append, hInv]
      simp [fetchState]
    · by_cases hB : s.execution_ended = true
      · rw [followStep, if_neg hA, if_pos hB] at h
        have h2 : some (fetchState svc t s, tr0 ++ fetchActs svc t s)
            = some (s1, tr1) := h
        injection h2 with h3
        injection h3 with h4 h5
        subst h4
        subst h5
        rw [pagesOf_append, pagesOf_fetchActs, List.flatten_append, hInv]
        simp [fetchState]
      · by_cases hC : isEndState (svc.status (t + 1)) = true
        · rw [followStep, if_neg hA, if_neg hB, if_pos hC] at h
          refine ih _ (statusState svc t s true) _ _ _ ?_ h
          rw [← List.append_assoc, pagesOf_append, pagesOf_append,
            pagesOf_fetchActs, List.flatten_append, List.flatten_append, hInv]
          simp [statusState, fetchState, pagesOf, statusAct]
        · rw [followStep, if_neg hA, if_neg hB, if_neg hC] at h
          refine ih _ (statusState svc t s false) _ _ _ ?_ h
          rw [← List.append_assoc, pagesOf_append, pagesOf_append,
            pagesOf_fetchActs, List.flatten_append, List.flatten_append, hInv]
          simp [statusState, fetchState, pagesOf, statusAct]

/-- The log calls of the trace are exactly the emitted events, in order,
each rendered with the severity mapping and the line format, against the
constant deployment id of the followed execution. -/
theorem loop_emits (svc : Service) (d : Option String) :
    ∀ fuel t s tr0 s1 tr1,
      s.exec.deployment_id = d →
      emitActions tr0 = s.emitted.map (emitF d) →
      followLoop svc fuel t s tr0 = some (s1, tr1) →
      emitActions tr1 = s1.emitted.map (emitF d) := by
  intro fuel
  induction fuel with
  | zero =>
    intro t s tr0 s1 tr1 hd hInv h
    simp [followLoop] at h
  | succ n ih =>
    intro t s tr0 s1 tr1 hd hInv h
    simp only [followLoop] at h
    by_cases hA : s.offset + (pageItems svc t s.offset).length < pageTotal svc t
    · rw [followStep, if_pos hA] at h
      refine ih _ (fetchState svc t s) _ _ _ hd ?_ h
      rw [emitActions_append, emitActions_fetchActs, hInv, hd]
      simp [fetchState]
    · by_cases hB : s.execution_ended = true
      · rw [followStep, if_neg hA, if_pos hB] at h
        have h2 : some (fetchState svc t s, tr0 ++ fetchActs svc t s)
            = some (s1, tr1) := h
        injection h2 with h3
        injection h3 with h4 h5
        subst h4
        subst h5
        rw [emitActions_append, emitActions_fetchActs, hInv, hd]
        simp [fetchState]
      · by_cases hC : isEndState (svc.status (t + 1)) = true
        · rw [followStep, if_neg hA, if_neg hB, if_pos hC] at h
          refine ih _ (statusState svc t s true) _ _ _ hd ?_ h
          rw [← List.append_assoc, emitActions_append, emitActions_append,
            emitActions_fetchActs, hInv, hd]
          simp [statusState, fetchState, emitActions, statusAct]
        · rw [followStep, if_neg hA, if_neg hB, if_neg hC] at h
          refine ih _ (statusState svc t s false) _ _ _ hd ?_ h
          rw [← List.append_assoc, emitActions_append, emitActions_append,
            emitActions_fetchActs, hInv, hd]
          simp [statusState, fetchState, emitActions, statusAct]

/-- Every event of every page recorded in the trace ends up in the emitted
list. -/
theorem loop_page_mem (svc : Service) :
    ∀ fuel t s tr0 s1 tr1,
      (∀ u o items tot, Act.fetchPage u o items tot ∈ tr0 →
        ∀ e ∈ items, e ∈ s.emitted) →
      followLoop svc fuel t s tr0 = some (s1, tr1) →
      ∀ u o items tot, Act.fetchPage u o items tot ∈ tr1 →
        ∀ e ∈ items, e ∈ s1.emitted := by
  intro fuel
  induction fuel with
  | zero =>
    intro t s tr0 s1 tr1 hInv h
    simp [followLoop] at h
  | succ n ih =>
    intro t s tr0 s1 tr1 hInv h
    simp only [followLoop] at h
    have hext : ∀ u o items tot,
        Act.fetchPage u o items tot ∈ tr0 ++ fetchActs svc t s →
          ∀ e ∈ items, e ∈ (fetchState svc t s).emitted := by
      intro u o items tot hm e he
      have hgoal : (fetchState svc t s).emitted
          = s.emitted ++ pageItems svc t s.offset := rfl
      rcases List.mem_append.mp hm with h1 | h1
      · rw [hgoal]
        exact List.mem_append.mpr (Or.inl (hInv u o items tot h1 e he))
      · rcases List.mem_cons.mp h1 with h2 | h2
        · injection h2 with hu ho hitems htot
          rw [hgoal]
          refine List.mem_append.mpr (Or.inr ?_)
          rw [← hitems]
          exact he
        · obtain ⟨x, _, hx⟩ := List.mem_map.mp h2
          rw [emitF] at hx
          exact absurd hx (by simp)
    by_cases hA : s.offset + (pageItems svc t s.offset).length < pageTotal svc t
    · rw [followStep, if_pos hA] at h
      exact ih _ (fetchState svc t s) _ _ _ hext h
    · by_cases hB : s.execution_ended = true
      · rw [followStep, if_neg hA, if_pos hB] at h
        have h2 : some (fetchState svc t s, tr0 ++ fetchActs svc t s)
            = some (s1, tr1) := h
        injection h2 with h3
        injection h3 with h4 h5
        subst h4
        subst h5
        exact hext
      · have hext2 : ∀ extra : List Act, (∀ a ∈ extra, pagesOf [a] = []) →
            ∀ u o items tot,
              Act.fetchPage u o items tot
                  ∈ tr0 ++ (fetchActs svc t s ++ extra) →
                ∀ e ∈ items, e ∈ (fetchState svc t s).emitted := by
          intro extra hx u o items tot hm e he
          rcases List.mem_append.mp hm with h1 | h1
          · exact hext u o items tot (List.mem_append.mpr (Or.inl h1)) e he
          · rcases List.mem_append.mp h1 with h2 | h2
            · exact hext u o items tot (List.mem_append.mpr (Or.inr h2)) e he
            · have := hx _ h2
              simp [pagesOf] at this
        by_cases hC : isEndState (svc.status (t + 1)) = true
        · rw [followStep, if_neg hA, if_neg hB, if_pos hC] at h
          exact ih _ (statusState svc t s true) _ _ _
            (hext2 [statusAct svc t s] (by simp [pagesOf, statusAct])) h
        · rw [followStep, if_neg hA, if_neg hB, if_neg hC] at h
          exact ih _ (statusState svc t s false) _ _ _
            (hext2 [statusAct svc t s, Act.sleep 1]
              (by intro a ha
                  rcases List.mem_cons.mp ha with rfl | ha2
                  · simp [pagesOf, statusAct]
                  · rcases List.mem_singleton.mp ha2 with rfl
                    simp [pagesOf])) h

/-- Main drain invariant: when the visible event list only ever grows (each
earlier view is a prefix of each later view), the loop exits with its
emitted list equal to the full event list visible at the final page fetch,
with offset and lastTotal equal to that final total, and with every event
visible at the moment of any status read contained (as a prefix) in the
final emitted list. -/
theorem loop_drained (svc : Service)
    (hMono : ∀ a b : Nat, a ≤ b → svc.events a <+: svc.events b) :
    ∀ fuel t s tr0 s1 tr1,
      s.emitted = (svc.events t).take s.offset →
      s.offset ≤ (svc.events t).length →
      (∀ u o tot st, Act.fetchStatus u o tot st ∈ tr0 → u ≤ t) →
      followLoop svc fuel t s tr0 = some (s1, tr1) →
      s1.emitted = svc.events s1.lastFetchT
      ∧ s1.offset = (svc.events s1.lastFetchT).length
      ∧ s1.lastTotal = (svc.events s1.lastFetchT).length
      ∧ ∀ u o tot st, Act.fetchStatus u o tot st ∈ tr1 →
          svc.events u <+: s1.emitted := by
  intro fuel
  induction fuel with
  | zero =>
    intro t s tr0 s1 tr1 hemit hlen htime h
    simp [followLoop] at h
  | succ n ih =>
    intro t s tr0 s1 tr1 hemit hlen htime h
    simp only [followLoop] at h
    have hp1 : (svc.events t).take s.offset ++ pageItems svc t s.offset
        = (svc.events t).take (s.offset + (pageItems svc t s.offset).length) :=
      (emitted_after_page (svc.events t) s.offset hlen).1
    have hp2 : s.offset + (pageItems svc t s.offset).length
        ≤ (svc.events t).length :=
      (emitted_after_page (svc.events t) s.offset hlen).2
    have hnewemit : ∀ t1 : Nat, t ≤ t1 →
        (fetchState svc t s).emitted
          = (svc.events t1).take (fetchState svc t s).offset := by
      intro t1 ht1
      show s.emitted ++ pageItems svc t s.offset
        = (svc.events t1).take (s.offset + (pageItems svc t s.offset).length)
      rw [hemit, hp1, take_stable_of_grow (hMono t t1 ht1) hp2]
    have hnewlen : ∀ t1 : Nat, t ≤ t1 →
        (fetchState svc t s).offset ≤ (svc.events t1).length := by
      intro t1 ht1
      exact hp2.trans (hMono t t1 ht1).length_le
    by_cases hA : s.offset + (pageItems svc t s.offset).length < pageTotal svc t
    · rw [followStep, if_pos hA] at h
      refine ih (t + 1) (fetchState svc t s) _ _ _
        (hnewemit (t + 1) (Nat.le_succ t)) (hnewlen (t + 1) (Nat.le_succ t))
        ?_ h
      intro u o tot st hm
      rcases List.mem_append.mp hm with h1 | h1
      · exact (htime u o tot st h1).trans (Nat.le_succ t)
      · exact absurd h1 (fetchStatus_not_mem_fetchActs svc t s u o tot st)
    · have hPT : pageTotal svc t = (svc.events t).length := rfl
      have hstop : pageTotal svc t
          ≤ s.offset + (pageItems svc t s.offset).length := Nat.le_of_not_lt hA
      have hoff : s.offset + (pageItems svc t s.offset).length
          = (svc.events t).length := by omega
      by_cases hB : s.execution_ended = true
      · rw [followStep, if_neg hA, if_pos hB] at h
        have h2 : some (fetchState svc t s, tr0 ++ fetchActs svc t s)
            = some (s1, tr1) := h
        injection h2 with h3
        injection h3 with h4 h5
        subst h4
        subst h5
        have hfin : (fetchState svc t s).emitted = svc.events t := by
          show s.emitted ++ pageItems svc t s.offset = svc.events t
          rw [hemit, hp1, hoff, List.take_length]
        refine ⟨hfin, ?_, ?_, ?_⟩
        · show s.offset + (pageItems svc t s.offset).length
            = (svc.events t).length
          exact hoff
        · show pageTotal svc t = (svc.events t).length
          exact hPT
        · intro u o tot st hm
          rcases List.mem_append.mp hm with h1 | h1
          · rw [hfin]
            exact hMono u t (htime u o tot st h1)
          · exact absurd h1 (fetchStatus_not_mem_fetchActs svc t s u o tot st)
      · have htime2 : ∀ extra : List Act,
            (∀ a ∈ extra, a = statusAct svc t s ∨ a = Act.sleep 1) →
            ∀ u o tot st,
              Act.fetchStatus u o tot st
                  ∈ tr0 ++ (fetchActs svc t s ++ extra) →
                u ≤ t + 2 := by
          intro extra hx u o tot st hm
          rcases List.mem_append.mp hm with h1 | h1
          · exact (htime u o tot st h1).trans (by omega)
          · rcases List.mem_append.mp h1 with h2 | h2
            · exact absurd h2 (fetchStatus_not_mem_fetchActs svc t s u o tot st)
            · rcases hx _ h2 with h3 | h3
              · rw [statusAct] at h3
                injection h3 with hu ho htot hst
                omega
              · simp at h3
        by_cases hC : isEndState (svc.status (t + 1)) = true
        · rw [followStep, if_neg hA, if_neg hB, if_pos hC] at h
          exact ih (t + 2) (statusState svc t s true) _ _ _
            (hnewemit (t + 2) (by omega)) (hnewlen (t + 2) (by omega))
            (htime2 [statusAct svc t s] (by simp)) h
        · rw [followStep, if_neg hA, if_neg hB, if_neg hC] at h
          exact ih (t + 2) (statusState svc t s false) _ _ _
            (hnewemit (t + 2) (by omega)) (hnewlen (t + 2) (by omega))
            (htime2 [statusAct svc t s, Act.sleep 1] (by
              intro a ha
              rcases List.mem_cons.mp ha with rfl | ha2
              · exact Or.inl rfl
              · rcases List.mem_singleton.mp ha2 with rfl
                exact Or.inr rfl)) h

/-- If the service never reports a terminal status, execution_ended can
never be set, so the loop never reaches its only break: it runs for any
amount of fuel. -/
theorem loop_stuck (svc : Service)
    (hS : ∀ u, isEndState (svc.status u) = false) :
    ∀ fuel t s tr0, s.execution_ended = false →
      followLoop svc fuel t s tr0 = none := by
  intro fuel
  induction fuel with
  | zero =>
    intro t s tr0 hend
    rfl
  | succ n ih =>
    intro t s tr0 hend
    simp only [followLoop]
    by_cases hA : s.offset + (pageItems svc t s.offset).length < pageTotal svc t
    · rw [followStep, if_pos hA]
      exact ih _ (fetchState svc t s) _ hend
    · have hB : ¬(s.execution_ended = true) := by rw [hend]; simp
      have hC : ¬(isEndState (svc.status (t + 1)) = true) := by
        rw [hS (t + 1)]; simp
      rw [followStep, if_neg hA, if_neg hB, if_neg hC]
      exact ih _ (statusState svc t s false) _ rfl

/-- If from clock T on the status is terminal and the event list is the
fixed list E, the loop exits within loopMeasure fuel. -/
theorem loop_term (svc : Service) (E : List Event) (T : Nat)
    (hT : ∀ u, T ≤ u → isEndState (svc.status u) = true)
    (hE : ∀ u, T ≤ u → svc.events u = E) :
    ∀ m t s tr0, loopMeasure E T t s ≤ m →
      (followLoop svc m t s tr0).isSome = true := by
  intro m
  induction m with
  | zero =>
    intro t s tr0 hm
    exfalso
    unfold loopMeasure at hm
    cases hcond : s.execution_ended <;> rw [hcond] at hm <;> simp at hm
  | succ n ih =>
    intro t s tr0 hm
    simp only [followLoop]
    by_cases hA : s.offset + (pageItems svc t s.offset).length < pageTotal svc t
    · rw [followStep, if_pos hA]
      refine ih (t + 1) (fetchState svc t s) _ ?_
      rcases Nat.lt_or_ge t T with ht | ht
      · simp only [loopMeasure, fetchState] at hm ⊢
        omega
      · have hEt : svc.events t = E := hE t ht
        have hk : (pageItems svc t s.offset).length
            = min pageSize (E.length - s.offset) := by
          rw [pageItems, hEt, List.length_take, List.length_drop]
        have hA2 : s.offset + (pageItems svc t s.offset).length < E.length := by
          have h0 : pageTotal svc t = E.length := by rw [pageTotal, hEt]
          omega
        have hps : pageSize = 500 := rfl
        simp only [loopMeasure, fetchState] at hm ⊢
        omega
    · by_cases hB : s.execution_ended = true
      · rw [followStep, if_neg hA, if_pos hB]
        rfl
      · have hB2 : s.execution_ended = false := by
          revert hB
          cases s.execution_ended <;> simp
        by_cases hC : isEndState (svc.status (t + 1)) = true
        · rw [followStep, if_neg hA, if_neg hB, if_pos hC]
          refine ih (t + 2) (statusState svc t s true) _ ?_
          simp [loopMeasure, statusState, fetchState, hB2] at hm ⊢
          omega
        · have ht : t + 1 < T := by
            by_contra hcon
            push_neg at hcon
            exact hC (hT (t + 1) hcon)
          rw [followStep, if_neg hA, if_neg hB, if_neg hC]
          refine ih (t + 2) (statusState svc t s false) _ ?_
          simp [loopMeasure, statusState, fetchState, hB2] at hm ⊢
          omega

/-- Unfolding of follow_execution: a some result comes from a loop exit,
the returned trace is the loop trace plus the summary line, and the
outcome is classified by the final status against TERMINATED. -/
theorem follow_execution_inv (svc : Service) (ex : Execution) (fuel : Nat)
    (out : Except FollowErr Execution) (s : FollowState) (tr : List Act)
    (h : follow_execution svc ex fuel = some (out, s, tr)) :
    ∃ tr0, followLoop svc fuel 0 (initState ex) [] = some (s, tr0)
      ∧ tr = tr0 ++ [if s.execution_ended then Act.logFinished
                     else Act.logTimedOut]
      ∧ (s.exec.status = Status.terminated → out = Except.ok s.exec)
      ∧ (s.exec.status ≠ Status.terminated →
          out = Except.error { execId := s.exec.id, status := s.exec.status }) := by
  unfold follow_execution at h
  split at h
  · exact absurd h (by simp)
  · next s0 tr0 hL =>
    split at h
    · next hend =>
      split at h
      · next hst =>
        have h2 := Option.some.inj h
        obtain ⟨hout, hrest⟩ := Prod.mk.inj h2
        obtain ⟨hs, htr⟩ := Prod.mk.inj hrest
        subst hs
        rw [if_pos hend]
        exact ⟨tr0, hL, htr.symm, fun _ => hout.symm, fun hne => absurd hst hne⟩
      · next hst =>
        have h2 := Option.some.inj h
        obtain ⟨hout, hrest⟩ := Prod.mk.inj h2
        obtain ⟨hs, htr⟩ := Prod.mk.inj hrest
        subst hs
        rw [if_pos hend]
        exact ⟨tr0, hL, htr.symm, fun heq => absurd heq hst, fun _ => hout.symm⟩
    · next hend =>
      split at h
      · next hst =>
        have h2 := Option.some.inj h
        obtain ⟨hout, hrest⟩ := Prod.mk.inj h2
        obtain ⟨hs, htr⟩ := Prod.mk.inj hrest
        subst hs
        rw [if_neg hend]
        exact ⟨tr0, hL, htr.symm, fun _ => hout.symm, fun hne => absurd hst hne⟩
      · next hst =>
        have h2 := Option.some.inj h
        obtain ⟨hout, hrest⟩ := Prod.mk.inj h2
        obtain ⟨hs, htr⟩ := Prod.mk.inj hrest
        subst hs
        rw [if_neg hend]
        exact ⟨tr0, hL, htr.symm, fun heq => absurd heq hst, fun _ => hout.symm⟩

/-! ## Claim theorems -/

/-- C1: over any run of follow_execution against a service whose visible
event list only grows (each earlier view is a prefix of each later one),
the follower emits exactly the concatenation of the returned pages, in
page order; the emitted list equals the full event list visible at the
final page fetch (every event exactly once, in order); and the final
emitted count equals the final reported total. -/
theorem follow_no_loss_no_duplication (svc : Service) (ex : Execution)
    (fuel : Nat) (out : Except FollowErr Execution) (s : FollowState)
    (tr : List Act)
    (hMono : ∀ a b : Nat, a ≤ b → svc.events a <+: svc.events b)
    (h : follow_execution svc ex fuel = some (out, s, tr)) :
    s.emitted = (pagesOf tr).flatten
    ∧ s.emitted = svc.events s.lastFetchT
    ∧ s.emitted.length = s.lastTotal := by
  obtain ⟨tr0, hL, htr, hok, herr⟩ := follow_execution_inv svc ex fuel out s tr h
  have hd := loop_drained svc hMono fuel 0 (initState ex) [] s tr0
    (by simp [initState]) (by simp [initState]) (by simp) hL
  have hp := loop_pages svc fuel 0 (initState ex) [] s tr0
    (by simp [pagesOf, initState]) hL
  refine ⟨?_, hd.1, ?_⟩
  · have hnil : pagesOf [if s.execution_ended then Act.logFinished
        else Act.logTimedOut] = [] := by
      cases s.execution_ended <;> simp [pagesOf]
    rw [htr, pagesOf_append, hnil, List.append_nil]
    exact hp.symm
  · rw [hd.1]
    exact hd.2.2.1.symm

/-- C1 check: the theorem applied to a concrete terminating run. -/
theorem follow_no_loss_no_duplication_check :
    stateOkW.emitted = (pagesOf traceOkW).flatten
    ∧ stateOkW.emitted = svcOk.events stateOkW.lastFetchT
    ∧ stateOkW.emitted.length = stateOkW.lastTotal :=
  follow_no_loss_no_duplication svcOk exW 2 (Except.ok exOkFinal) stateOkW
    traceOkW (fun _ _ _ => List.prefix_refl []) rfl

/-- C2: in any run of follow_execution (against a growing-events service),
every status fetch is issued only once the offset has reached the total
reported by the page fetched just before it; at least one page fetch
happens in an iteration entered with execution_ended already set (the
drain pass after the terminal status was first observed, before the loop
can exit); and every event visible at the moment of any status read is
contained, as a prefix, in the final emitted list. -/
theorem follow_status_gate_and_drain (svc : Service) (ex : Execution)
    (fuel : Nat) (out : Except FollowErr Execution) (s : FollowState)
    (tr : List Act)
    (hMono : ∀ a b : Nat, a ≤ b → svc.events a <+: svc.events b)
    (h : follow_execution svc ex fuel = some (out, s, tr)) :
    (∀ u o tot st, Act.fetchStatus u o tot st ∈ tr → tot ≤ o)
    ∧ 1 ≤ s.fetchesAfterEnded
    ∧ (∀ u o tot st, Act.fetchStatus u o tot st ∈ tr →
        svc.events u <+: s.emitted) := by
  obtain ⟨tr0, hL, htr, hok, herr⟩ := follow_execution_inv svc ex fuel out s tr h
  have hmem : ∀ u o tot st, Act.fetchStatus u o tot st ∈ tr →
      Act.fetchStatus u o tot st ∈ tr0 := by
    intro u o tot st hm
    rw [htr] at hm
    rcases List.mem_append.mp hm with h1 | h1
    · exact h1
    · have h2 := List.mem_singleton.mp h1
      cases hcase : s.execution_ended <;> rw [hcase] at h2 <;> simp at h2
  have hg := loop_status_gated svc fuel 0 (initState ex) [] s tr0 (by simp) hL
  have he := loop_exit svc fuel 0 (initState ex) [] s tr0 hL
  have hd := loop_drained svc hMono fuel 0 (initState ex) [] s tr0
    (by simp [initState]) (by simp [initState]) (by simp) hL
  exact ⟨fun u o tot st hm => hg u o tot st (hmem u o tot st hm),
         he.2,
         fun u o tot st hm => hd.2.2.2 u o tot st (hmem u o tot st hm)⟩

/-- C2 check: the theorem applied to a concrete run, specialized to the
status read that run performs. -/
theorem follow_status_gate_and_drain_check :
    (0 : Nat) ≤ 0
    ∧ 1 ≤ stateOkW.fetchesAfterEnded
    ∧ svcOk.events 1 <+: stateOkW.emitted := by
  have h := follow_status_gate_and_drain svcOk exW 2 (Except.ok exOkFinal)
    stateOkW traceOkW (fun _ _ _ => List.prefix_refl []) rfl
  exact ⟨h.1 1 0 0 Status.terminated (by decide),
         h.2.1,
         h.2.2 1 0 0 Status.terminated (by decide)⟩

/-- C3: every some result of follow_execution carries a terminal final
status and the original execution id; when that status is the success
status TERMINATED the outcome is a normal return of the execution, and for
every other (non-success) terminal status the outcome is the raised error
carrying the execution id and the observed status. -/
theorem follow_terminal_classification (svc : Service) (ex : Execution)
    (fuel : Nat) (out : Except FollowErr Execution) (s : FollowState)
    (tr : List Act)
    (h : follow_execution svc ex fuel = some (out, s, tr)) :
    isEndState s.exec.status = true
    ∧ s.exec.id = ex.id
    ∧ (s.exec.status = Status.terminated → out = Except.ok s.exec)
    ∧ (s.exec.status ≠ Status.terminated →
        out = Except.error { execId := ex.id, status := s.exec.status }) := by
  obtain ⟨tr0, hL, htr, hok, herr⟩ := follow_execution_inv svc ex fuel out s tr h
  have hexec := loop_exec svc fuel 0 (initState ex) [] s tr0
    (fun hend => absurd hend (by simp [initState])) hL
  have hend := (loop_exit svc fuel 0 (initState ex) [] s tr0 hL).1
  have hid : s.exec.id = ex.id := hexec.2.1
  refine ⟨hexec.1 hend, hid, hok, ?_⟩
  intro hne
  rw [herr hne, hid]

/-- C3 check: the theorem applied to a run ending in the failed status:
the outcome is the error carrying the id and the failed status. -/
theorem follow_terminal_classification_check :
    isEndState stateFailW.exec.status = true
    ∧ stateFailW.exec.id = exW.id
    ∧ (Except.error { execId := "e1", status := Status.failed }
        : Except FollowErr Execution)
      = Except.error { execId := exW.id, status := stateFailW.exec.status } := by
  have h := follow_terminal_classification svcFail exW 2
    (Except.error { execId := "e1", status := Status.failed })
    stateFailW traceFailW rfl
  exact ⟨h.1, h.2.1, h.2.2.2 (by decide)⟩

/-- C9: the polling loop can only exit through the break guarded by
execution_ended, so every some result has the flag set, the post-loop
branch taken is the Finished one, and the Timed out warning line never
appears in any trace: it is unreachable. -/
theorem follow_loop_exit_flag (svc : Service) (ex : Execution) (fuel : Nat)
    (out : Except FollowErr Execution) (s : FollowState) (tr : List Act)
    (h : follow_execution svc ex fuel = some (out, s, tr)) :
    s.execution_ended = true
    ∧ Act.logTimedOut ∉ tr
    ∧ Act.logFinished ∈ tr := by
  obtain ⟨tr0, hL, htr, hok, herr⟩ := follow_execution_inv svc ex fuel out s tr h
  have hend := (loop_exit svc fuel 0 (initState ex) [] s tr0 hL).1
  have hacts := loop_acts svc fuel 0 (initState ex) [] s tr0 hL
  refine ⟨hend, ?_, ?_⟩
  · rw [htr, hend]
    intro hmem
    rcases List.mem_append.mp hmem with h1 | h1
    · rcases hacts _ h1 with h2 | h2
      · simp at h2
      · simp [isLoopAct] at h2
    · simp at h1
  · rw [htr, hend]
    simp

/-- C9 check: the theorem applied to a concrete run. -/
theorem follow_loop_exit_flag_check :
    stateOkW.execution_ended = true
    ∧ Act.logTimedOut ∉ traceOkW
    ∧ Act.logFinished ∈ traceOkW :=
  follow_loop_exit_flag svcOk exW 2 (Except.ok exOkFinal) stateOkW traceOkW rfl

theorem follow_execution_isSome (svc : Service) (ex : Execution) (fuel : Nat)
    (h : (followLoop svc fuel 0 (initState ex) []).isSome = true) :
    (follow_execution svc ex fuel).isSome = true := by
  unfold follow_execution
  rcases hL : followLoop svc fuel 0 (initState ex) [] with _ | ⟨s0, tr0⟩
  · rw [hL] at h
    simp at h
  · by_cases hst : s0.exec.status = Status.terminated
    · simp [hst]
    · simp [hst]

/-- C4: follow_execution has no bounded timeout.  If the service never
reports a terminal status the loop runs forever: for every fuel the run is
still unfinished (no return, no raised error).  Conversely, if from some
clock T on the status is terminal and the event list has stopped growing
at E, the loop finishes within the enoughFuel budget. -/
theorem follow_unbounded_wait (svc : Service) (ex : Execution) :
    ((∀ u, isEndState (svc.status u) = false) →
      ∀ fuel, follow_execution svc ex fuel = none)
    ∧ (∀ (T : Nat) (E : List Event),
        (∀ u, T ≤ u → isEndState (svc.status u) = true) →
        (∀ u, T ≤ u → svc.events u = E) →
        (follow_execution svc ex (enoughFuel T E)).isSome = true) := by
  constructor
  · intro hS fuel
    unfold follow_execution
    rw [loop_stuck svc hS fuel 0 (initState ex) [] rfl]
  · intro T E hT hE
    refine follow_execution_isSome svc ex (enoughFuel T E) ?_
    refine loop_term svc E T hT hE (enoughFuel T E) 0 (initState ex) [] ?_
    simp [loopMeasure, initState, enoughFuel]
    omega

/-- C4 check: on a never-terminal service the run stays unfinished at any
fuel; on an immediately terminal stable service it finishes in budget. -/
theorem follow_unbounded_wait_check :
    follow_execution svcStuck exW 5 = none
    ∧ (follow_execution svcOk exW (enoughFuel 0 [])).isSome = true :=
  ⟨(follow_unbounded_wait svcStuck exW).1 (fun _ => rfl) 5,
   (follow_unbounded_wait svcOk exW).2 0 []
     (fun _ _ => rfl) (fun _ _ => rfl)⟩

theorem sum_zero_map (l : List Event) :
    (l.map fun _ => (0 : Nat)).sum = 0 := by
  induction l with
  | nil => rfl
  | cons e l ih => simp [ih]

theorem hasStatusFetch_fetchActs (svc : Service) (t : Nat) (s : FollowState) :
    hasStatusFetch (fetchActs svc t s) = false := by
  simp [hasStatusFetch, fetchActs, emitF, List.any_map, Function.comp]

theorem sleepSecs_fetchActs (svc : Service) (t : Nat) (s : FollowState) :
    sleepSecs (fetchActs svc t s) = 0 := by
  simp [sleepSecs, fetchActs, emitF, List.map_map, Function.comp]
  exact sum_zero_map _

theorem sleepSecs_append (l1 l2 : List Act) :
    sleepSecs (l1 ++ l2) = sleepSecs l1 + sleepSecs l2 := by
  simp [sleepSecs]

/-- C5: one loop iteration, by cases.  (a) While the advanced offset is
below the reported total the loop continues at the very next clock tick,
with no status fetch and no sleep.  (b) When the offset has caught up and
the freshly fetched status is terminal, the loop continues without any
sleep.  (c) Only when the fetched status is not terminal does the follower
sleep exactly 1 second.  (d) When the offset has caught up and
execution_ended was already set, the iteration is the break: no status
fetch, no sleep. -/
theorem follow_step_pacing (svc : Service) (t : Nat) (s : FollowState) :
    (s.offset + (pageItems svc t s.offset).length < pageTotal svc t →
      (followStep svc t s).nextT = some (t + 1)
      ∧ hasStatusFetch (followStep svc t s).acts = false
      ∧ sleepSecs (followStep svc t s).acts = 0)
    ∧ (¬ s.offset + (pageItems svc t s.offset).length < pageTotal svc t →
        s.execution_ended = false →
        isEndState (svc.status (t + 1)) = true →
        (followStep svc t s).nextT = some (t + 2)
        ∧ hasStatusFetch (followStep svc t s).acts = true
        ∧ sleepSecs (followStep svc t s).acts = 0)
    ∧ (¬ s.offset + (pageItems svc t s.offset).length < pageTotal svc t →
        s.execution_ended = false →
        isEndState (svc.status (t + 1)) = false →
        (followStep svc t s).nextT = some (t + 2)
        ∧ hasStatusFetch (followStep svc t s).acts = true
        ∧ sleepSecs (followStep svc t s).acts = 1)
    ∧ (¬ s.offset + (pageItems svc t s.offset).length < pageTotal svc t →
        s.execution_ended = true →
        (followStep svc t s).isStop = true
        ∧ hasStatusFetch (followStep svc t s).acts = false
        ∧ sleepSecs (followStep svc t s).acts = 0) := by
  refine ⟨?_, ?_, ?_, ?_⟩
  · intro hA
    rw [followStep, if_pos hA]
    exact ⟨rfl, hasStatusFetch_fetchActs svc t s, sleepSecs_fetchActs svc t s⟩
  · intro hA hB hC
    rw [followStep, if_neg hA, if_neg (by simp [hB]), if_pos hC]
    refine ⟨rfl, ?_, ?_⟩
    · show hasStatusFetch (fetchActs svc t s ++ [statusAct svc t s]) = true
      simp [hasStatusFetch, List.any_append, statusAct]
    · show sleepSecs (fetchActs svc t s ++ [statusAct svc t s]) = 0
      rw [sleepSecs_append, sleepSecs_fetchActs]
      simp [sleepSecs, statusAct]
  · intro hA hB hC
    rw [followStep, if_neg hA, if_neg (by simp [hB]), if_neg (by simp [hC])]
    refine ⟨rfl, ?_, ?_⟩
    · show hasStatusFetch
        (fetchActs svc t s ++ [statusAct svc t s, Act.sleep 1]) = true
      simp [hasStatusFetch, List.any_append, statusAct]
    · show sleepSecs
        (fetchActs svc t s ++ [statusAct svc t s, Act.sleep 1]) = 1
      rw [sleepSecs_append, sleepSecs_fetchActs]
      simp [sleepSecs, statusAct]
  · intro hA hB
    rw [followStep, if_neg hA, if_pos hB]
    exact ⟨rfl, hasStatusFetch_fetchActs svc t s, sleepSecs_fetchActs svc t s⟩

set_option maxRecDepth 40000 in
/-- C5 check: the theorem applied to four concrete iteration states, one
per branch. -/
theorem follow_step_pacing_check :
    ((followStep svcBig 0 (initState exW)).nextT = some 1
      ∧ hasStatusFetch (followStep svcBig 0 (initState exW)).acts = false
      ∧ sleepSecs (followStep svcBig 0 (initState exW)).acts = 0)
    ∧ ((followStep svcOk 0 (initState exW)).nextT = some 2
      ∧ hasStatusFetch (followStep svcOk 0 (initState exW)).acts = true
      ∧ sleepSecs (followStep svcOk 0 (initState exW)).acts = 0)
    ∧ ((followStep svcStuck 0 (initState exW)).nextT = some 2
      ∧ hasStatusFetch (followStep svcStuck 0 (initState exW)).acts = true
      ∧ sleepSecs (followStep svcStuck 0 (initState exW)).acts = 1)
    ∧ ((followStep svcOk 0 stateOkW).isStop = true
      ∧ hasStatusFetch (followStep svcOk 0 stateOkW).acts = false
      ∧ sleepSecs (followStep svcOk 0 stateOkW).acts = 0) :=
  ⟨(follow_step_pacing svcBig 0 (initState exW)).1 (by decide),
   (follow_step_pacing svcOk 0 (initState exW)).2.1 (by decide) rfl rfl,
   (follow_step_pacing svcStuck 0 (initState exW)).2.2.1 (by decide) rfl rfl,
   (follow_step_pacing svcOk 0 stateOkW).2.2.2 (by decide) rfl⟩

theorem uninstallStep_calls (client : Client) (dep : String) (fuel : Nat)
    (tr : List Call) (er : Option RunErr)
    (h : uninstallStep client dep fuel = some (tr, er)) :
    tr = [Call.startExecution dep "uninstall",
          Call.followExecution (client.startExec dep "uninstall").id]
    ∧ ∀ e2, er = some e2 → ∃ e3, e2 = RunErr.executionFailed e3 := by
  unfold uninstallStep at h
  split at h
  · exact absurd h (by simp)
  · next e s1 tr1 heq =>
    have h2 := Option.some.inj h
    obtain ⟨htr, her⟩ := Prod.mk.inj h2
    refine ⟨htr.symm, fun e2 he2 => ⟨e, ?_⟩⟩
    rw [← her] at he2
    exact (Option.some.inj he2).symm
  · next s1 tr1 heq =>
    have h2 := Option.some.inj h
    obtain ⟨htr, her⟩ := Prod.mk.inj h2
    refine ⟨htr.symm, fun e2 he2 => ?_⟩
    rw [← her] at he2
    simp at he2

/-- C6: uninstall issues exactly, in order: start the uninstall workflow,
follow it, delete the deployment, delete the blueprint.  When the follower
raises (the only error this path can raise is the execution-failed one),
the two deletions are absent from the issued calls. -/
theorem uninstall_sequence_order (managers : Managers) (mid app : String)
    (fuel : Nat) (res : SeqResult)
    (h : uninstall managers mid app fuel = some res) :
    (res.2 = none →
      res.1 = [Call.startExecution app "uninstall",
               Call.followExecution
                 ((get_rest_client managers mid).startExec app "uninstall").id,
               Call.deleteDeployment app, Call.deleteBlueprint app])
    ∧ (∀ er, res.2 = some er →
        (∃ e, er = RunErr.executionFailed e)
        ∧ res.1 = [Call.startExecution app "uninstall",
                   Call.followExecution
                     ((get_rest_client managers mid).startExec app "uninstall").id]
        ∧ Call.deleteDeployment app ∉ res.1
        ∧ Call.deleteBlueprint app ∉ res.1) := by
  unfold uninstall at h
  split at h
  · exact absurd h (by simp)
  · next tr e heq =>
    obtain ⟨hcalls, herr⟩ :=
      uninstallStep_calls (get_rest_client managers mid) app fuel tr (some e) heq
    have h2 := Option.some.inj h
    subst h2
    constructor
    · intro h0
      simp at h0
    · intro er her2
      have he : er = e := (Option.some.inj her2).symm
      subst he
      refine ⟨herr er rfl, hcalls, ?_, ?_⟩
      · rw [hcalls]
        simp
      · rw [hcalls]
        simp
  · next tr heq =>
    obtain ⟨hcalls, herr⟩ :=
      uninstallStep_calls (get_rest_client managers mid) app fuel tr none heq
    have h2 := Option.some.inj h
    subst h2
    constructor
    · intro h0
      show tr ++ [Call.deleteDeployment app, Call.deleteBlueprint app] = _
      rw [hcalls]
      rfl
    · intro er her2
      simp at her2

/-- C6 check: the theorem applied to a concrete successful uninstall. -/
theorem uninstall_sequence_order_check :
    ([Call.startExecution "app" "uninstall", Call.followExecution "app.uninstall",
      Call.deleteDeployment "app", Call.deleteBlueprint "app"] : List Call)
      = [Call.startExecution "app" "uninstall",
         Call.followExecution
           ((get_rest_client managersOk "m1").startExec "app" "uninstall").id,
         Call.deleteDeployment "app", Call.deleteBlueprint "app"] := by
  have h := uninstall_sequence_order managersOk "m1" "app" 2
    ([Call.startExecution "app" "uninstall", Call.followExecution "app.uninstall",
      Call.deleteDeployment "app", Call.deleteBlueprint "app"], none) rfl
  exact h.1 rfl

/-- C10: _create_deployment recovers the implicit creation execution as
the head of the executions listing.  An empty listing makes it fail with
the IndexError of the bare [0] indexing, after the create and list calls
and before any follow; a non-empty listing makes it follow the first
element, and the IndexError cannot occur. -/
theorem create_deployment_first_execution (client : Client)
    (bp dep inputs : String) (fuel : Nat) :
    (client.listExecutions dep = [] →
      create_deployment client bp dep inputs fuel
        = some ([Call.createDeployment bp dep inputs, Call.listExecutions dep],
                some RunErr.indexError))
    ∧ (∀ ex rest, client.listExecutions dep = ex :: rest →
        ∀ tr er, create_deployment client bp dep inputs fuel = some (tr, er) →
          Call.followExecution ex.id ∈ tr ∧ er ≠ some RunErr.indexError) := by
  constructor
  · intro hnil
    unfold create_deployment
    rw [hnil]
  · intro ex rest hcons tr er h
    unfold create_deployment at h
    rw [hcons] at h
    split at h
    · next x heq =>
      exact absurd heq (by simp)
    · next depEx tl heq =>
      injection heq with hex htl
      subst hex
      split at h
      · exact absurd h (by simp)
      · next e s1 tr1 heq2 =>
        have h2 := Option.some.inj h
        obtain ⟨htr, her⟩ := Prod.mk.inj h2
        constructor
        · rw [← htr]
          simp
        · rw [← her]
          simp
      · next s1 tr1 heq2 =>
        have h2 := Option.some.inj h
        obtain ⟨htr, her⟩ := Prod.mk.inj h2
        constructor
        · rw [← htr]
          simp
        · rw [← her]
          simp

/-- C10 check: empty listing yields the IndexError result; a singleton
listing makes the head execution the followed one. -/
theorem create_deployment_first_execution_check :
    (create_deployment clientEmpty "b" "d" "i" 1
      = some ([Call.createDeployment "b" "d" "i", Call.listExecutions "d"],
              some RunErr.indexError))
    ∧ (Call.followExecution "d.create"
        ∈ [Call.createDeployment "b" "d" "i", Call.listExecutions "d",
           Call.followExecution "d.create"]
      ∧ (none : Option RunErr) ≠ some RunErr.indexError) :=
  ⟨(create_deployment_first_execution clientEmpty "b" "d" "i" 1).1 rfl,
   (create_deployment_first_execution clientOk "b" "d" "i" 2).2
     { id := "d.create", workflow_id := "create_deployment_environment",
       deployment_id := some "d", status := Status.started } [] rfl
     [Call.createDeployment "b" "d" "i", Call.listExecutions "d",
      Call.followExecution "d.create"] none rfl⟩

/-- C7: when create returns successfully, the produced record is exactly
the four-field record of manager id resolved from the topologies registry,
the given environment deployment id, and the outputs and capabilities read
from that deployment; both reads appear among the issued calls. -/
theorem create_output_record (managers : Managers) (bp dep inputs : String)
    (fuel : Nat) (tr : List Call) (r : CreateOutput)
    (h : create managers bp dep inputs fuel = some (tr, Except.ok r)) :
    r = { manager_id := managers.topologies bp
          deployment_id := dep
          outputs := (get_rest_client managers (managers.topologies bp)).outputs dep
          capabilities :=
            (get_rest_client managers (managers.topologies bp)).capabilities dep }
    ∧ Call.getCapabilities dep ∈ tr
    ∧ Call.getOutputs dep ∈ tr := by
  unfold create at h
  split at h
  · exact absurd h (by simp)
  · next tr0 e heq =>
    have h2 := Option.some.inj h
    obtain ⟨htr, hex⟩ := Prod.mk.inj h2
    exact absurd hex (by simp)
  · next tr0 heq =>
    split at h
    · exact absurd h (by simp)
    · next tr2 e heq2 =>
      have h2 := Option.some.inj h
      obtain ⟨htr, hex⟩ := Prod.mk.inj h2
      exact absurd hex (by simp)
    · next tr2 heq2 =>
      have h2 := Option.some.inj h
      obtain ⟨htr, hex⟩ := Prod.mk.inj h2
      have hr := Except.ok.inj hex
      refine ⟨hr.symm, ?_, ?_⟩
      · rw [← htr]
        simp
      · rw [← htr]
        simp

/-- C7 check: the theorem applied to a concrete successful create. -/
theorem create_output_record_check :
    ({ manager_id := "m1", deployment_id := "env", outputs := "outs",
       capabilities := "caps" } : CreateOutput)
      = { manager_id := managersOk.topologies "bp"
          deployment_id := "env"
          outputs :=
            (get_rest_client managersOk (managersOk.topologies "bp")).outputs "env"
          capabilities :=
            (get_rest_client managersOk (managersOk.topologies "bp")).capabilities "env" }
    ∧ Call.getCapabilities "env"
        ∈ [Call.createDeployment "bp" "env" "inp", Call.listExecutions "env",
           Call.followExecution "env.create", Call.startExecution "env" "install",
           Call.followExecution "env.install", Call.getCapabilities "env",
           Call.getOutputs "env"]
    ∧ Call.getOutputs "env"
        ∈ [Call.createDeployment "bp" "env" "inp", Call.listExecutions "env",
           Call.followExecution "env.create", Call.startExecution "env" "install",
           Call.followExecution "env.install", Call.getCapabilities "env",
           Call.getOutputs "env"] :=
  create_output_record managersOk "bp" "env" "inp" 2
    [Call.createDeployment "bp" "env" "inp", Call.listExecutions "env",
     Call.followExecution "env.create", Call.startExecution "env" "install",
     Call.followExecution "env.install", Call.getCapabilities "env",
     Call.getOutputs "env"]
    { manager_id := "m1", deployment_id := "env", outputs := "outs",
      capabilities := "caps" } rfl

/-- C8: the log calls of a run are exactly the emitted events in order,
each rendered once via the severity mapping and the line format (so every
event of every fetched page is emitted, with its rendering, exactly once);
the severity mapping defaults to INFO for an absent level and is applied
to the upper-cased level name otherwise; and the line is prefixed by
timestamp and deployment id, with the node-instance fragment present
exactly when the field is present and non-empty. -/
theorem follow_event_rendering (svc : Service) (ex : Execution) (fuel : Nat)
    (out : Except FollowErr Execution) (s : FollowState) (tr : List Act)
    (h : follow_execution svc ex fuel = some (out, s, tr)) :
    emitActions tr = s.emitted.map (emitF ex.deployment_id)
    ∧ (∀ u o items tot, Act.fetchPage u o items tot ∈ tr →
        ∀ e ∈ items, emitF ex.deployment_id e ∈ tr)
    ∧ (∀ e : Event, e.level = none → severityOf e = loggingLevel "INFO")
    ∧ (∀ (e : Event) (lv : String), e.level = some lv →
        severityOf e = loggingLevel (pyUpper lv))
    ∧ (∀ (d : Option String) (e : Event),
        formatLine d e
          = "[" ++ e.reported_timestamp ++ "] [" ++ pyStr d ++ "] "
            ++ nodePart e ++ e.message)
    ∧ (∀ (e : Event) (n : String), e.node_instance_id = some n → ¬ n = "" →
        nodePart e = "[" ++ n ++ "] ")
    ∧ (∀ e : Event, e.node_instance_id = none ∨ e.node_instance_id = some "" →
        nodePart e = "") := by
  obtain ⟨tr0, hL, htr, hok, herr⟩ := follow_execution_inv svc ex fuel out s tr h
  have hEmit0 := loop_emits svc ex.deployment_id fuel 0 (initState ex) [] s tr0
    rfl rfl hL
  have hEmit : emitActions tr = s.emitted.map (emitF ex.deployment_id) := by
    have hlast : emitActions [if s.execution_ended then Act.logFinished
        else Act.logTimedOut] = [] := by
      cases s.execution_ended <;> simp [emitActions]
    rw [htr, emitActions_append, hlast, List.append_nil]
    exact hEmit0
  have hpm := loop_page_mem svc fuel 0 (initState ex) [] s tr0 (by simp) hL
  refine ⟨hEmit, ?_, ?_, ?_, ?_, ?_, ?_⟩
  · intro u o items tot hmem e he
    have hmem2 : Act.fetchPage u o items tot ∈ tr0 := by
      rw [htr] at hmem
      rcases List.mem_append.mp hmem with h1 | h1
      · exact h1
      · have h2 := List.mem_singleton.mp h1
        cases hcase : s.execution_ended <;> rw [hcase] at h2 <;> simp at h2
    have he2 : e ∈ s.emitted := hpm u o items tot hmem2 e he
    have he3 : emitF ex.deployment_id e ∈ emitActions tr := by
      rw [hEmit]
      exact List.mem_map_of_mem _ he2
    exact List.mem_of_mem_filter he3
  · intro e hl
    rw [severityOf, hl]
    rfl
  · intro e lv hl
    rw [severityOf, hl]
    rfl
  · intro d e
    rfl
  · intro e n hn hne
    simp [nodePart, hn, hne]
  · intro e h0
    rcases h0 with h1 | h1 <;> simp [nodePart, h1]

set_option maxRecDepth 4000 in
/-- C8 check: the theorem applied to a concrete run with growing pages:
the rendered log lines, the per-page emission, the default and upper-cased
severities, and both node-fragment cases. -/
theorem follow_event_rendering_check :
    emitActions traceGrowW = stateGrowW.emitted.map (emitF exW.deployment_id)
    ∧ emitF exW.deployment_id e1G ∈ traceGrowW
    ∧ severityOf e3G = loggingLevel "INFO"
    ∧ severityOf e2G = loggingLevel (pyUpper "WARNING")
    ∧ formatLine exW.deployment_id e2G
        = "[" ++ e2G.reported_timestamp ++ "] [" ++ pyStr exW.deployment_id
          ++ "] " ++ nodePart e2G ++ e2G.message
    ∧ nodePart e2G = "[" ++ "n1" ++ "] "
    ∧ nodePart e3G = "" := by
  have h := follow_event_rendering svcGrow exW 10
    (Except.ok exOkFinal) stateGrowW traceGrowW rfl
  exact ⟨h.1,
         h.2.1 0 0 [e1G, e2G] 2 (by decide) e1G (by decide),
         h.2.2.1 e3G rfl,
         h.2.2.2.1 e2G "WARNING" rfl,
         h.2.2.2.2.1 exW.deployment_id e2G,
         h.2.2.2.2.2.1 e2G "n1" rfl (by decide),
         h.2.2.2.2.2.2 e3G (Or.inr rfl)⟩
